import Mathlib

/-
Verification of the MemoryLeakDetector engine (bolt-cppml).

Shallow embedding of the class `bolt::MemoryLeakDetector` and its data
entities `AllocationInfo` and `LeakDetectionStats`.  All counters in the
source are `size_t`; they are modelled as `Nat` with explicit arithmetic
modulo `2 ^ 64`.  Addresses (`void*`) are modelled as `Nat` (0 = nullptr);
timestamps (`std::chrono::steady_clock::now()`) are environmental inputs
and appear as explicit `now : Nat` parameters.  `std::map` is modelled as
an association list with insert-or-replace / first-match-find / erase;
none of the verified properties depends on iteration order.
-/

namespace Bolt

/-- Modulus of `size_t` arithmetic: `2 ^ 64`. -/
def W : Nat := 18446744073709551616

/-- `size_t` addition: wraps modulo `2 ^ 64`. -/
def addW (a b : Nat) : Nat := (a + b) % W

/-- `size_t` subtraction: wraps modulo `2 ^ 64` (no clamping, no sign). -/
def subW (a b : Nat) : Nat := (a + (W - b % W)) % W

/-- Mirrors `struct AllocationInfo` (pointer, size, file, line, function,
timestamp, category, tracked). -/
structure AllocationInfo where
  pointer : Nat
  size : Nat
  file : String
  line : Int
  function : String
  timestamp : Nat
  category : String
  tracked : Bool
deriving DecidableEq, Repr

/-- Association-list model of `std::map<void*, AllocationInfo>`:
`operator[]` assignment (insert or replace). -/
def mapInsert (k : Nat) (v : AllocationInfo) :
    List (Nat × AllocationInfo) → List (Nat × AllocationInfo)
  | [] => [(k, v)]
  | (k1, v1) :: rest =>
    if k1 = k then (k1, v) :: rest else (k1, v1) :: mapInsert k v rest

/-- `std::map::find`: first entry with the given key. -/
def mapFind (k : Nat) : List (Nat × AllocationInfo) → Option AllocationInfo
  | [] => none
  | (k1, v1) :: rest => if k1 = k then some v1 else mapFind k rest

/-- `std::map::erase` of a key. -/
def mapErase (k : Nat) :
    List (Nat × AllocationInfo) → List (Nat × AllocationInfo)
  | [] => []
  | (k1, v1) :: rest =>
    if k1 = k then rest else (k1, v1) :: mapErase k rest

/-- `categoryStats_[c] += x` on `std::map<std::string, size_t>`
(`operator[]` default-constructs 0 when the key is absent). -/
def catAdd (c : String) (x : Nat) :
    List (String × Nat) → List (String × Nat)
  | [] => [(c, addW 0 x)]
  | (c1, v) :: rest =>
    if c1 = c then (c1, addW v x) :: rest else (c1, v) :: catAdd c x rest

/-- `categoryStats_[c] -= x` on `std::map<std::string, size_t>`. -/
def catSub (c : String) (x : Nat) :
    List (String × Nat) → List (String × Nat)
  | [] => [(c, subW 0 x)]
  | (c1, v) :: rest =>
    if c1 = c then (c1, subW v x) :: rest else (c1, v) :: catSub c x rest

/-- Lookup in a `std::map<std::string, size_t>` (absent key reads as 0,
matching `operator[]` default construction). -/
def catFind (c : String) : List (String × Nat) → Nat
  | [] => 0
  | (c1, v) :: rest => if c1 = c then v else catFind c rest

/-- State of `class MemoryLeakDetector` (its private data members). -/
structure MemoryLeakDetector where
  enabled_ : Bool
  allocations_ : List (Nat × AllocationInfo)
  currentMemoryUsage_ : Nat
  peakMemoryUsage_ : Nat
  categoryStats_ : List (String × Nat)
deriving DecidableEq, Repr

/-- Freshly constructed detector: `enabled_ = true`, empty map, zero
counters (the in-class initializers). -/
def initState : MemoryLeakDetector :=
  { enabled_ := true, allocations_ := [], currentMemoryUsage_ := 0,
    peakMemoryUsage_ := 0, categoryStats_ := [] }

/-- `MemoryLeakDetector::trackAllocation`.  The `size_t` argument is
modelled as its value modulo `2 ^ 64`; `now` is the timestamp captured by
`std::chrono::steady_clock::now()` in the `AllocationInfo` constructor. -/
def trackAllocation (s : MemoryLeakDetector) (ptr sz : Nat) (file : String)
    (line : Int) (function category : String) (now : Nat) :
    MemoryLeakDetector :=
  if s.enabled_ = false ∨ ptr = 0 then s
  else
    let info : AllocationInfo :=
      { pointer := ptr, size := sz % W, file := file, line := line,
        function := function, timestamp := now, category := category,
        tracked := true }
    let cur : Nat := addW s.currentMemoryUsage_ (sz % W)
    { s with
      allocations_ := mapInsert ptr info s.allocations_,
      currentMemoryUsage_ := cur,
      peakMemoryUsage_ :=
        if s.peakMemoryUsage_ < cur then cur else s.peakMemoryUsage_,
      categoryStats_ := catAdd category (sz % W) s.categoryStats_ }

/-- `MemoryLeakDetector::untrackAllocation`. -/
def untrackAllocation (s : MemoryLeakDetector) (ptr : Nat) :
    MemoryLeakDetector :=
  if s.enabled_ = false ∨ ptr = 0 then s
  else
    match mapFind ptr s.allocations_ with
    | none => s
    | some info =>
      { s with
        currentMemoryUsage_ := subW s.currentMemoryUsage_ info.size,
        categoryStats_ := catSub info.category info.size s.categoryStats_,
        allocations_ := mapErase ptr s.allocations_ }

/-- `MemoryLeakDetector::setEnabled`. -/
def setEnabled (s : MemoryLeakDetector) (b : Bool) : MemoryLeakDetector :=
  { s with enabled_ := b }

/-- `MemoryLeakDetector::isEnabled`. -/
def isEnabled (s : MemoryLeakDetector) : Bool := s.enabled_

/-- `MemoryLeakDetector::hasLeaks`. -/
def hasLeaks (s : MemoryLeakDetector) : Bool := !s.allocations_.isEmpty

/-- `MemoryLeakDetector::getLeakCount`. -/
def getLeakCount (s : MemoryLeakDetector) : Nat := s.allocations_.length

/-- `MemoryLeakDetector::getLeakedBytes`: full scan accumulating in a
`size_t` local. -/
def getLeakedBytes (s : MemoryLeakDetector) : Nat :=
  s.allocations_.foldl (fun total e => addW total e.2.size) 0

/-- Mirrors `struct LeakDetectionStats`. -/
structure LeakDetectionStats where
  totalLeaks : Nat
  totalLeakedBytes : Nat
  peakMemoryUsage : Nat
  currentMemoryUsage : Nat
  leaksByCategory : List (String × Nat)
  leaksByFile : List (String × Nat)
  detectionTime : Nat
deriving DecidableEq, Repr

/-- `MemoryLeakDetector::getStats`: the per-category and per-file maps are
built by scanning the live set (`allocations_`), never by reading
`categoryStats_`.  The single C++ loop filling both maps is modelled as
one fold per map; the resulting map contents are identical. -/
def getStats (s : MemoryLeakDetector) (now : Nat) : LeakDetectionStats :=
  { totalLeaks := getLeakCount s,
    totalLeakedBytes := getLeakedBytes s,
    peakMemoryUsage := s.peakMemoryUsage_,
    currentMemoryUsage := s.currentMemoryUsage_,
    leaksByCategory :=
      s.allocations_.foldl (fun m e => catAdd e.2.category e.2.size m) [],
    leaksByFile :=
      s.allocations_.foldl (fun m e => catAdd e.2.file e.2.size m) [],
    detectionTime := now }

/-- `MemoryLeakDetector::clear`. -/
def clear (s : MemoryLeakDetector) : MemoryLeakDetector :=
  { s with allocations_ := [], currentMemoryUsage_ := 0,
           categoryStats_ := [] }

/-- `MemoryLeakDetector::resetStats`. -/
def resetStats (s : MemoryLeakDetector) : MemoryLeakDetector :=
  { s with peakMemoryUsage_ := s.currentMemoryUsage_ }

/-- One public-interface call on the detector. -/
inductive Op where
  | track (ptr sz : Nat) (file : String) (line : Int)
      (function category : String) (now : Nat)
  | untrack (ptr : Nat)
  | clearOp
  | resetStatsOp
  | setEnabledOp (b : Bool)
deriving DecidableEq, Repr

/-- Interpretation of one call. -/
def step (s : MemoryLeakDetector) : Op → MemoryLeakDetector
  | Op.track p sz f l fn c now => trackAllocation s p sz f l fn c now
  | Op.untrack p => untrackAllocation s p
  | Op.clearOp => clear s
  | Op.resetStatsOp => resetStats s
  | Op.setEnabledOp b => setEnabled s b

/-- Replay a sequence of calls. -/
def replay (s : MemoryLeakDetector) (ops : List Op) : MemoryLeakDetector :=
  ops.foldl step s

/-- Keys of the live-allocation map. -/
def keys (l : List (Nat × AllocationInfo)) : List Nat := l.map Prod.fst

/-- Exact (unbounded) sum of the sizes stored in the live map. -/
def sumSizes (l : List (Nat × AllocationInfo)) : Nat :=
  (l.map (fun e => e.2.size)).sum

theorem W_pos : 0 < W := by decide

theorem addW_lt (a b : Nat) : addW a b < W := Nat.mod_lt _ W_pos

theorem subW_lt (a b : Nat) : subW a b < W := Nat.mod_lt _ W_pos

theorem addW_eq_of_lt {a b : Nat} (h : a + b < W) : addW a b = a + b :=
  Nat.mod_eq_of_lt h

theorem subW_of_le {a b : Nat} (hba : b ≤ a) (ha : a < W) :
    subW a b = a - b := by
  simp only [subW, W] at *
  omega

theorem subW_mod_sub {a b : Nat} (hba : b ≤ a) :
    subW (a % W) b = (a - b) % W := by
  simp only [subW, W] at *
  omega

theorem subW_of_wrap {a b : Nat} (h : a < b % W) :
    subW a b = a + W - b % W := by
  simp only [subW, W] at *
  omega

theorem replay_cons (s : MemoryLeakDetector) (op : Op) (ops : List Op) :
    replay s (op :: ops) = replay (step s op) ops := rfl

theorem getLeakedBytes_foldl (l : List (Nat × AllocationInfo)) :
    ∀ a : Nat, a < W →
      l.foldl (fun total e => addW total e.2.size) a = (a + sumSizes l) % W := by
  induction l with
  | nil =>
    intro a ha
    simp [sumSizes, Nat.mod_eq_of_lt ha]
  | cons e rest ih =>
    intro a ha
    have h1 : addW a e.2.size < W := addW_lt _ _
    simp only [List.foldl_cons]
    rw [ih _ h1]
    simp only [addW, sumSizes, List.map_cons, List.sum_cons, W] at *
    omega

theorem getLeakedBytes_eq (s : MemoryLeakDetector) :
    getLeakedBytes s = sumSizes s.allocations_ % W := by
  have := getLeakedBytes_foldl s.allocations_ 0 W_pos
  simpa [getLeakedBytes] using this

theorem mapFind_eq_none {p : Nat} {l : List (Nat × AllocationInfo)} :
    mapFind p l = none ↔ p ∉ keys l := by
  induction l with
  | nil => simp [mapFind, keys]
  | cons e rest ih =>
    obtain ⟨k1, v1⟩ := e
    by_cases h : k1 = p
    · subst h
      simp [mapFind, keys]
    · simp [mapFind, keys, h, ih, Ne.symm h]

theorem mapInsert_of_not_mem {p : Nat} (v : AllocationInfo)
    {l : List (Nat × AllocationInfo)} (h : p ∉ keys l) :
    mapInsert p v l = l ++ [(p, v)] := by
  induction l with
  | nil => simp [mapInsert]
  | cons e rest ih =>
    obtain ⟨k1, v1⟩ := e
    simp only [keys, List.map_cons, List.mem_cons] at h
    push_neg at h
    simp only [mapInsert, if_neg (Ne.symm h.1), List.cons_append]
    rw [ih h.2]

theorem keys_mapInsert_of_mem {p : Nat} (v : AllocationInfo)
    {l : List (Nat × AllocationInfo)} (h : p ∈ keys l) :
    keys (mapInsert p v l) = keys l := by
  induction l with
  | nil => simp [keys] at h
  | cons e rest ih =>
    obtain ⟨k1, v1⟩ := e
    by_cases hk : k1 = p
    · simp [mapInsert, hk, keys]
    · simp only [keys, List.map_cons, List.mem_cons] at h
      rcases h with h | h
      · exact absurd h.symm hk
      · have hih := ih h
        simp only [keys] at hih ⊢
        simp [mapInsert, hk, hih]

theorem mapFind_mapInsert_self (p : Nat) (v : AllocationInfo)
    (l : List (Nat × AllocationInfo)) :
    mapFind p (mapInsert p v l) = some v := by
  induction l with
  | nil => simp [mapInsert, mapFind]
  | cons e rest ih =>
    obtain ⟨k1, v1⟩ := e
    by_cases hk : k1 = p
    · simp [mapInsert, mapFind, hk]
    · simp [mapInsert, mapFind, hk, ih]

theorem sumSizes_append (l1 l2 : List (Nat × AllocationInfo)) :
    sumSizes (l1 ++ l2) = sumSizes l1 + sumSizes l2 := by
  simp [sumSizes]

theorem sumSizes_mapInsert {p : Nat} {old : AllocationInfo}
    (v : AllocationInfo) {l : List (Nat × AllocationInfo)}
    (h : mapFind p l = some old) :
    sumSizes (mapInsert p v l) + old.size = sumSizes l + v.size := by
  induction l with
  | nil => simp [mapFind] at h
  | cons e rest ih =>
    obtain ⟨k1, v1⟩ := e
    by_cases hk : k1 = p
    · simp only [mapFind, if_pos hk] at h
      cases h
      simp [mapInsert, hk, sumSizes]
      omega
    · simp only [mapFind, if_neg hk] at h
      have := ih h
      simp only [mapInsert, if_neg hk, sumSizes, List.map_cons,
        List.sum_cons] at *
      omega

theorem sumSizes_mapErase {p : Nat} {v : AllocationInfo}
    {l : List (Nat × AllocationInfo)} (h : mapFind p l = some v) :
    sumSizes l = v.size + sumSizes (mapErase p l) := by
  induction l with
  | nil => simp [mapFind] at h
  | cons e rest ih =>
    obtain ⟨k1, v1⟩ := e
    by_cases hk : k1 = p
    · simp only [mapFind, if_pos hk] at h
      cases h
      simp [mapErase, hk, sumSizes]
    · simp only [mapFind, if_neg hk] at h
      have := ih h
      simp only [mapErase, if_neg hk, sumSizes, List.map_cons,
        List.sum_cons] at *
      omega

theorem keys_mapErase (p : Nat) (l : List (Nat × AllocationInfo)) :
    keys (mapErase p l) = (keys l).erase p := by
  induction l with
  | nil => simp [mapErase, keys]
  | cons e rest ih =>
    obtain ⟨k1, v1⟩ := e
    by_cases hk : k1 = p
    · simp [mapErase, hk, keys, List.erase_cons_head]
    · rw [show keys ((k1, v1) :: rest) = k1 :: keys rest from rfl,
        List.erase_cons_tail]
      · simp [mapErase, hk, keys] at ih ⊢
        exact ih
      · simp [hk]

theorem mapFind_mapErase_self {p : Nat} {l : List (Nat × AllocationInfo)}
    (h : (keys l).Nodup) : mapFind p (mapErase p l) = none := by
  induction l with
  | nil => simp [mapErase, mapFind]
  | cons e rest ih =>
    obtain ⟨k1, v1⟩ := e
    simp only [keys, List.map_cons, List.nodup_cons] at h
    by_cases hk : k1 = p
    · subst hk
      simp only [mapErase, if_pos rfl]
      exact mapFind_eq_none.2 h.1
    · simp only [mapErase, if_neg hk, mapFind, if_neg hk]
      exact ih h.2

theorem nodup_keys_mapInsert {p : Nat} (v : AllocationInfo)
    {l : List (Nat × AllocationInfo)} (h : (keys l).Nodup) :
    (keys (mapInsert p v l)).Nodup := by
  by_cases hp : p ∈ keys l
  · rw [keys_mapInsert_of_mem v hp]
    exact h
  · rw [mapInsert_of_not_mem v hp]
    simp only [keys, List.map_append]
    rw [List.nodup_append]
    refine ⟨h, List.nodup_singleton _, ?_⟩
    intro a ha hb
    simp only [List.map_cons, List.map_nil, List.mem_singleton] at hb
    subst hb
    exact hp ha

theorem nodup_keys_mapErase {p : Nat} {l : List (Nat × AllocationInfo)}
    (h : (keys l).Nodup) : (keys (mapErase p l)).Nodup := by
  rw [keys_mapErase]
  exact h.erase p

theorem catFind_catAdd_self (c : String) (x : Nat)
    (m : List (String × Nat)) :
    catFind c (catAdd c x m) = addW (catFind c m) x := by
  induction m with
  | nil => simp [catAdd, catFind]
  | cons e rest ih =>
    obtain ⟨c1, v⟩ := e
    by_cases hc : c1 = c
    · simp [catAdd, catFind, hc]
    · simp [catAdd, catFind, hc, ih]

theorem catFind_catAdd_ne {c c1 : String} (hne : c1 ≠ c) (x : Nat)
    (m : List (String × Nat)) :
    catFind c (catAdd c1 x m) = catFind c m := by
  induction m with
  | nil => simp [catAdd, catFind, hne]
  | cons e rest ih =>
    obtain ⟨c2, v⟩ := e
    by_cases hc : c2 = c1
    · subst hc
      simp [catAdd, catFind, hne]
    · simp [catAdd, catFind, hc, ih]

theorem catFind_catSub_self (c : String) (x : Nat)
    (m : List (String × Nat)) :
    catFind c (catSub c x m) = subW (catFind c m) x := by
  induction m with
  | nil => simp [catSub, catFind]
  | cons e rest ih =>
    obtain ⟨c1, v⟩ := e
    by_cases hc : c1 = c
    · simp [catSub, catFind, hc]
    · simp [catSub, catFind, hc, ih]

theorem catFind_lt_of_addW {c : String} {m : List (String × Nat)}
    (h : catFind c m < W) (c1 : String) (x : Nat) :
    catFind c (catAdd c1 x m) < W := by
  by_cases hc : c1 = c
  · subst hc
    rw [catFind_catAdd_self]
    exact addW_lt _ _
  · rw [catFind_catAdd_ne hc]
    exact h

theorem trackAllocation_noop {s : MemoryLeakDetector} {p : Nat}
    (h : s.enabled_ = false ∨ p = 0) (sz : Nat) (f : String) (l : Int)
    (fn c : String) (now : Nat) :
    trackAllocation s p sz f l fn c now = s := by
  simp [trackAllocation, h]

theorem untrackAllocation_noop {s : MemoryLeakDetector} {p : Nat}
    (h : s.enabled_ = false ∨ p = 0) : untrackAllocation s p = s := by
  simp [untrackAllocation, h]

theorem trackAllocation_eq {s : MemoryLeakDetector} {p : Nat}
    (henb : s.enabled_ = true) (hp : p ≠ 0) (sz : Nat) (f : String)
    (l : Int) (fn c : String) (now : Nat) :
    trackAllocation s p sz f l fn c now =
      { s with
        allocations_ :=
          mapInsert p
            { pointer := p, size := sz % W, file := f, line := l,
              function := fn, timestamp := now, category := c,
              tracked := true } s.allocations_,
        currentMemoryUsage_ := addW s.currentMemoryUsage_ (sz % W),
        peakMemoryUsage_ :=
          if s.peakMemoryUsage_ < addW s.currentMemoryUsage_ (sz % W) then
            addW s.currentMemoryUsage_ (sz % W)
          else s.peakMemoryUsage_,
        categoryStats_ := catAdd c (sz % W) s.categoryStats_ } := by
  simp [trackAllocation, henb, hp]

theorem untrackAllocation_found {s : MemoryLeakDetector} {p : Nat}
    {info : AllocationInfo} (henb : s.enabled_ = true) (hp : p ≠ 0)
    (hf : mapFind p s.allocations_ = some info) :
    untrackAllocation s p =
      { s with
        currentMemoryUsage_ := subW s.currentMemoryUsage_ info.size,
        categoryStats_ := catSub info.category info.size s.categoryStats_,
        allocations_ := mapErase p s.allocations_ } := by
  simp [untrackAllocation, henb, hp, hf]

theorem untrackAllocation_not_found {s : MemoryLeakDetector} {p : Nat}
    (hf : mapFind p s.allocations_ = none) : untrackAllocation s p = s := by
  unfold untrackAllocation
  split
  · rfl
  · simp [hf]

/-- Condition of C1: a call sequence of `trackAllocation`/`untrackAllocation`
only, all addresses non-null, no address tracked twice while live, the
detector enabled at every step. -/
def validOps : MemoryLeakDetector → List Op → Bool
  | _, [] => true
  | s, Op.track p sz f l fn c now :: rest =>
    (s.enabled_ && (p != 0) && (mapFind p s.allocations_).isNone)
      && validOps (step s (Op.track p sz f l fn c now)) rest
  | s, Op.untrack p :: rest =>
    (s.enabled_ && (p != 0)) && validOps (step s (Op.untrack p)) rest
  | _, _ :: _ => false

/-- Spec-side bookkeeping (follows the claim's words, for comparison with
the code): the running list of tracked-but-not-yet-untracked addresses. -/
def liveGo : List Nat → List Op → List Nat
  | acc, [] => acc
  | acc, Op.track p _ _ _ _ _ _ :: rest =>
    liveGo (if p ∈ acc then acc else acc ++ [p]) rest
  | acc, Op.untrack p :: rest => liveGo (acc.erase p) rest
  | acc, Op.clearOp :: rest => liveGo acc rest
  | acc, Op.resetStatsOp :: rest => liveGo acc rest
  | acc, Op.setEnabledOp _ :: rest => liveGo acc rest

/-- Spec-side definition (follows the claim's words): the addresses
tracked but not yet untracked by a call sequence. -/
def specLiveAddresses (ops : List Op) : List Nat := liveGo [] ops

/-- Absence of `size_t` wraparound along a call sequence: every effective
track fits the current-usage counter below `2 ^ 64` and every effective
untrack subtracts no more than the counter holds. -/
def noOverflowOps : MemoryLeakDetector → List Op → Bool
  | _, [] => true
  | s, Op.track p sz f l fn c now :: rest =>
    decide (s.currentMemoryUsage_ + sz % W < W)
      && noOverflowOps (step s (Op.track p sz f l fn c now)) rest
  | s, Op.untrack p :: rest =>
    (match mapFind p s.allocations_ with
     | some info => decide (info.size ≤ s.currentMemoryUsage_)
     | none => true)
      && noOverflowOps (step s (Op.untrack p)) rest
  | s, op :: rest => noOverflowOps (step s op) rest

/-- Recognizes the two mutating calls of C5. -/
def isTrackOrUntrack : Op → Bool
  | Op.track _ _ _ _ _ _ _ => true
  | Op.untrack _ => true
  | _ => false

/-- Spec-side definition (follows the claim's words): group the current
live set by record category and sum the sizes (in a `size_t`
accumulator). -/
def specCategorySum (c : String) (s : MemoryLeakDetector) : Nat :=
  ((s.allocations_.filter (fun e => e.2.category == c)).map
    (fun e => e.2.size)).sum % W

/-- Spec-side definition (follows the claim's words): group the current
live set by record source file and sum the sizes (in a `size_t`
accumulator). -/
def specFileSum (f : String) (s : MemoryLeakDetector) : Nat :=
  ((s.allocations_.filter (fun e => e.2.file == f)).map
    (fun e => e.2.size)).sum % W

theorem replay_inv : ∀ (ops : List Op) (s : MemoryLeakDetector),
    validOps s ops = true →
    s.currentMemoryUsage_ = sumSizes s.allocations_ % W →
    (replay s ops).currentMemoryUsage_ =
        sumSizes (replay s ops).allocations_ % W
      ∧ keys (replay s ops).allocations_ = liveGo (keys s.allocations_) ops := by
  intro ops
  induction ops with
  | nil =>
    intro s _ hcur
    exact ⟨hcur, rfl⟩
  | cons op rest ih =>
    intro s hv hcur
    cases op with
    | track p sz f l fn c now =>
      simp only [validOps, Bool.and_eq_true, bne_iff_ne, ne_eq,
        Option.isNone_iff_eq_none] at hv
      obtain ⟨⟨⟨henb, hp⟩, hnone⟩, hrest⟩ := hv
      have hmem : p ∉ keys s.allocations_ := mapFind_eq_none.1 hnone
      rw [replay_cons]
      have hstep : step s (Op.track p sz f l fn c now) =
          trackAllocation s p sz f l fn c now := rfl
      rw [hstep, trackAllocation_eq henb hp]
      have halloc :
          mapInsert p
            { pointer := p, size := sz % W, file := f, line := l,
              function := fn, timestamp := now, category := c,
              tracked := true } s.allocations_ =
          s.allocations_ ++
            [(p, { pointer := p, size := sz % W, file := f, line := l,
                   function := fn, timestamp := now, category := c,
                   tracked := true })] := mapInsert_of_not_mem _ hmem
      rw [halloc]
      have hcur2 :
          addW s.currentMemoryUsage_ (sz % W) =
            sumSizes (s.allocations_ ++
              [(p, { pointer := p, size := sz % W, file := f, line := l,
                     function := fn, timestamp := now, category := c,
                     tracked := true })]) % W := by
        rw [sumSizes_append, hcur]
        simp only [addW, sumSizes, List.map_cons, List.map_nil,
          List.sum_cons, List.sum_nil, W] at *
        omega
      have hkeys :
          keys (s.allocations_ ++
            [(p, { pointer := p, size := sz % W, file := f, line := l,
                   function := fn, timestamp := now, category := c,
                   tracked := true })]) = keys s.allocations_ ++ [p] := by
        simp [keys]
      have := ih _ (by simpa [step, trackAllocation_eq henb hp, halloc]
        using hrest) (by simpa using hcur2)
      refine ⟨this.1, ?_⟩
      rw [this.2, hkeys]
      simp only [liveGo, if_neg hmem]
    | untrack p =>
      simp only [validOps, Bool.and_eq_true, bne_iff_ne, ne_eq] at hv
      obtain ⟨⟨henb, hp⟩, hrest⟩ := hv
      rw [replay_cons]
      have hstep : step s (Op.untrack p) = untrackAllocation s p := rfl
      cases hf : mapFind p s.allocations_ with
      | none =>
        have hs : untrackAllocation s p = s := untrackAllocation_not_found hf
        rw [hstep, hs]
        have hmem : p ∉ keys s.allocations_ := mapFind_eq_none.1 hf
        have := ih _ (by simpa [step, hs] using hrest) hcur
        refine ⟨this.1, ?_⟩
        rw [this.2]
        simp only [liveGo, List.erase_of_not_mem hmem]
      | some info =>
        have hs := untrackAllocation_found henb hp hf
        rw [hstep, hs]
        have hsum := sumSizes_mapErase hf
        have hle : info.size ≤ sumSizes s.allocations_ := by omega
        have hcur2 :
            subW s.currentMemoryUsage_ info.size =
              sumSizes (mapErase p s.allocations_) % W := by
          rw [hcur, subW_mod_sub hle]
          congr 1
          omega
        have := ih _ (by simpa [step, hs] using hrest) (by simpa using hcur2)
        refine ⟨this.1, ?_⟩
        rw [this.2]
        simp only [liveGo, keys_mapErase]
    | clearOp => simp [validOps] at hv
    | resetStatsOp => simp [validOps] at hv
    | setEnabledOp b => simp [validOps] at hv

theorem peak_mono_step (s : MemoryLeakDetector) (op : Op)
    (h : op ≠ Op.resetStatsOp) :
    s.peakMemoryUsage_ ≤ (step s op).peakMemoryUsage_ := by
  cases op with
  | track p sz f l fn c now =>
    by_cases hcond : s.enabled_ = false ∨ p = 0
    · rw [show step s (Op.track p sz f l fn c now) =
        trackAllocation s p sz f l fn c now from rfl,
        trackAllocation_noop hcond]
    · push_neg at hcond
      have henb : s.enabled_ = true := by
        cases hb : s.enabled_
        · exact absurd rfl (hb ▸ hcond.1)
        · rfl
      rw [show step s (Op.track p sz f l fn c now) =
        trackAllocation s p sz f l fn c now from rfl,
        trackAllocation_eq henb hcond.2]
      by_cases hpk : s.peakMemoryUsage_ < addW s.currentMemoryUsage_ (sz % W)
      · simp only [if_pos hpk]
        exact Nat.le_of_lt hpk
      · simp only [if_neg hpk]
        exact Nat.le_refl _
  | untrack p =>
    by_cases hcond : s.enabled_ = false ∨ p = 0
    · rw [show step s (Op.untrack p) = untrackAllocation s p from rfl,
        untrackAllocation_noop hcond]
    · push_neg at hcond
      have henb : s.enabled_ = true := by
        cases hb : s.enabled_
        · exact absurd rfl (hb ▸ hcond.1)
        · rfl
      cases hf : mapFind p s.allocations_ with
      | none =>
        rw [show step s (Op.untrack p) = untrackAllocation s p from rfl,
          untrackAllocation_not_found hf]
      | some info =>
        rw [show step s (Op.untrack p) = untrackAllocation s p from rfl,
          untrackAllocation_found henb hcond.2 hf]
  | clearOp => exact Nat.le_refl _
  | resetStatsOp => exact absurd rfl h
  | setEnabledOp b => exact Nat.le_refl _

theorem noOverflow_inv : ∀ (ops : List Op) (s : MemoryLeakDetector),
    noOverflowOps s ops = true →
    s.currentMemoryUsage_ ≤ s.peakMemoryUsage_ →
    s.currentMemoryUsage_ < W →
    (replay s ops).currentMemoryUsage_ ≤ (replay s ops).peakMemoryUsage_
      ∧ (replay s ops).currentMemoryUsage_ < W := by
  intro ops
  induction ops with
  | nil =>
    intro s _ hle hlt
    exact ⟨hle, hlt⟩
  | cons op rest ih =>
    intro s hv hle hlt
    rw [replay_cons]
    cases op with
    | track p sz f l fn c now =>
      simp only [noOverflowOps, Bool.and_eq_true, decide_eq_true_eq] at hv
      obtain ⟨hbound, hrest⟩ := hv
      refine ih _ hrest ?_ ?_
      all_goals
        by_cases hcond : s.enabled_ = false ∨ p = 0
      · rw [show step s (Op.track p sz f l fn c now) =
          trackAllocation s p sz f l fn c now from rfl,
          trackAllocation_noop hcond]
        exact hle
      · push_neg at hcond
        have henb : s.enabled_ = true := by
          cases hb : s.enabled_
          · exact absurd rfl (hb ▸ hcond.1)
          · rfl
        rw [show step s (Op.track p sz f l fn c now) =
          trackAllocation s p sz f l fn c now from rfl,
          trackAllocation_eq henb hcond.2]
        simp only
        by_cases hpk : s.peakMemoryUsage_ <
            addW s.currentMemoryUsage_ (sz % W)
        · simp [if_pos hpk]
        · simp only [if_neg hpk]
          exact Nat.le_of_not_lt hpk
      · rw [show step s (Op.track p sz f l fn c now) =
          trackAllocation s p sz f l fn c now from rfl,
          trackAllocation_noop hcond]
        exact hlt
      · push_neg at hcond
        have henb : s.enabled_ = true := by
          cases hb : s.enabled_
          · exact absurd rfl (hb ▸ hcond.1)
          · rfl
        rw [show step s (Op.track p sz f l fn c now) =
          trackAllocation s p sz f l fn c now from rfl,
          trackAllocation_eq henb hcond.2]
        exact addW_lt _ _
    | untrack p =>
      simp only [noOverflowOps, Bool.and_eq_true] at hv
      obtain ⟨hbound, hrest⟩ := hv
      refine ih _ hrest ?_ ?_
      all_goals
        by_cases hcond : s.enabled_ = false ∨ p = 0
      · rw [show step s (Op.untrack p) = untrackAllocation s p from rfl,
          untrackAllocation_noop hcond]
        exact hle
      · push_neg at hcond
        have henb : s.enabled_ = true := by
          cases hb : s.enabled_
          · exact absurd rfl (hb ▸ hcond.1)
          · rfl
        cases hf : mapFind p s.allocations_ with
        | none =>
          rw [show step s (Op.untrack p) = untrackAllocation s p from rfl,
            untrackAllocation_not_found hf]
          exact hle
        | some info =>
          rw [hf] at hbound
          simp only [decide_eq_true_eq] at hbound
          rw [show step s (Op.untrack p) = untrackAllocation s p from rfl,
            untrackAllocation_found henb hcond.2 hf]
          simp only
          rw [subW_of_le hbound hlt]
          omega
      · rw [show step s (Op.untrack p) = untrackAllocation s p from rfl,
          untrackAllocation_noop hcond]
        exact hlt
      · push_neg at hcond
        have henb : s.enabled_ = true := by
          cases hb : s.enabled_
          · exact absurd rfl (hb ▸ hcond.1)
          · rfl
        cases hf : mapFind p s.allocations_ with
        | none =>
          rw [show step s (Op.untrack p) = untrackAllocation s p from rfl,
            untrackAllocation_not_found hf]
          exact hlt
        | some info =>
          rw [show step s (Op.untrack p) = untrackAllocation s p from rfl,
            untrackAllocation_found henb hcond.2 hf]
          exact subW_lt _ _
    | clearOp =>
      simp only [noOverflowOps] at hv
      exact ih _ hv (Nat.zero_le _) W_pos
    | resetStatsOp =>
      simp only [noOverflowOps] at hv
      exact ih _ hv (Nat.le_refl _) hlt
    | setEnabledOp b =>
      simp only [noOverflowOps] at hv
      exact ih _ hv hle hlt

theorem nodup_keys_step (s : MemoryLeakDetector) (op : Op)
    (h : (keys s.allocations_).Nodup) :
    (keys (step s op).allocations_).Nodup := by
  cases op with
  | track p sz f l fn c now =>
    by_cases hcond : s.enabled_ = false ∨ p = 0
    · rw [show step s (Op.track p sz f l fn c now) =
        trackAllocation s p sz f l fn c now from rfl,
        trackAllocation_noop hcond]
      exact h
    · push_neg at hcond
      have henb : s.enabled_ = true := by
        cases hb : s.enabled_
        · exact absurd rfl (hb ▸ hcond.1)
        · rfl
      rw [show step s (Op.track p sz f l fn c now) =
        trackAllocation s p sz f l fn c now from rfl,
        trackAllocation_eq henb hcond.2]
      exact nodup_keys_mapInsert _ h
  | untrack p =>
    by_cases hcond : s.enabled_ = false ∨ p = 0
    · rw [show step s (Op.untrack p) = untrackAllocation s p from rfl,
        untrackAllocation_noop hcond]
      exact h
    · push_neg at hcond
      have henb : s.enabled_ = true := by
        cases hb : s.enabled_
        · exact absurd rfl (hb ▸ hcond.1)
        · rfl
      cases hf : mapFind p s.allocations_ with
      | none =>
        rw [show step s (Op.untrack p) = untrackAllocation s p from rfl,
          untrackAllocation_not_found hf]
        exact h
      | some info =>
        rw [show step s (Op.untrack p) = untrackAllocation s p from rfl,
          untrackAllocation_found henb hcond.2 hf]
        exact nodup_keys_mapErase h
  | clearOp => simp [step, clear, keys]
  | resetStatsOp => exact h
  | setEnabledOp b => exact h

theorem nodup_keys_replay (ops : List Op) :
    (keys (replay initState ops).allocations_).Nodup := by
  have main : ∀ (l : List Op) (s : MemoryLeakDetector),
      (keys s.allocations_).Nodup → (keys (replay s l).allocations_).Nodup := by
    intro l
    induction l with
    | nil => intro s h; exact h
    | cons op rest ih =>
      intro s h
      rw [replay_cons]
      exact ih _ (nodup_keys_step s op h)
  exact main ops initState (by simp [initState, keys])

theorem catFind_foldGroup (key : Nat × AllocationInfo → String) :
    ∀ (l : List (Nat × AllocationInfo)) (m : List (String × Nat))
      (c : String), catFind c m < W →
      catFind c (l.foldl (fun m1 e => catAdd (key e) e.2.size m1) m) =
        (catFind c m +
          ((l.filter (fun e => key e == c)).map (fun e => e.2.size)).sum)
          % W := by
  intro l
  induction l with
  | nil =>
    intro m c h
    simp [Nat.mod_eq_of_lt h]
  | cons e rest ih =>
    intro m c h
    simp only [List.foldl_cons]
    by_cases hc : key e = c
    · have hfind : catFind c (catAdd (key e) e.2.size m) =
          addW (catFind c m) e.2.size := by
        rw [hc, catFind_catAdd_self]
      have hlt : catFind c (catAdd (key e) e.2.size m) < W :=
        catFind_lt_of_addW h _ _
      rw [ih _ _ hlt, hfind]
      simp only [List.filter_cons, hc, beq_self_eq_true, if_pos,
        List.map_cons, List.sum_cons]
      simp only [addW, W] at *
      omega
    · have hfind : catFind c (catAdd (key e) e.2.size m) = catFind c m :=
        catFind_catAdd_ne hc _ _
      have hlt : catFind c (catAdd (key e) e.2.size m) < W :=
        catFind_lt_of_addW h _ _
      rw [ih _ _ hlt, hfind]
      have hbeq : (key e == c) = false := by
        simp [hc]
      simp [List.filter_cons, hbeq]

theorem disabled_replay : ∀ (ops : List Op) (s : MemoryLeakDetector),
    s.enabled_ = false → (∀ op ∈ ops, isTrackOrUntrack op = true) →
    replay s ops = s := by
  intro ops
  induction ops with
  | nil => intro s _ _; rfl
  | cons op rest ih =>
    intro s hdis hops
    have hop : isTrackOrUntrack op = true := hops op (List.mem_cons_self _ _)
    have hrest : ∀ o ∈ rest, isTrackOrUntrack o = true :=
      fun o ho => hops o (List.mem_cons_of_mem _ ho)
    rw [replay_cons]
    cases op with
    | track p sz f l fn c now =>
      rw [show step s (Op.track p sz f l fn c now) =
        trackAllocation s p sz f l fn c now from rfl,
        trackAllocation_noop (Or.inl hdis)]
      exact ih s hdis hrest
    | untrack p =>
      rw [show step s (Op.untrack p) = untrackAllocation s p from rfl,
        untrackAllocation_noop (Or.inl hdis)]
      exact ih s hdis hrest
    | clearOp => simp [isTrackOrUntrack] at hop
    | resetStatsOp => simp [isTrackOrUntrack] at hop
    | setEnabledOp b => simp [isTrackOrUntrack] at hop

/-- C1: for any sequence of `trackAllocation`/`untrackAllocation` calls
with non-null addresses, no address tracked twice while still live, and
the detector enabled throughout, the incrementally maintained
`currentMemoryUsage_` equals `getLeakedBytes()` (which recomputes the sum
of `size` over all live records by full scan), and `getLeakCount()`
equals the number of tracked-but-not-yet-untracked addresses. -/
theorem C1_balance_law (ops : List Op)
    (hv : validOps initState ops = true) :
    (replay initState ops).currentMemoryUsage_ =
        getLeakedBytes (replay initState ops)
      ∧ getLeakCount (replay initState ops) =
        (specLiveAddresses ops).length := by
  have h := replay_inv ops initState hv (by simp [initState, sumSizes])
  constructor
  · rw [getLeakedBytes_eq]
    exact h.1
  · have hlen : getLeakCount (replay initState ops) =
        (keys (replay initState ops).allocations_).length := by
      simp [getLeakCount, keys]
    rw [hlen, h.2]
    rfl

/-- Concrete instance of C1: a three-call valid sequence. -/
def opsC1 : List Op :=
  [Op.track 1 100 "f" 1 "g" "a" 0, Op.track 2 50 "f" 2 "g" "b" 1,
   Op.untrack 1]

theorem C1_balance_law_witness :
    validOps initState opsC1 = true
    ∧ ((replay initState opsC1).currentMemoryUsage_ =
          getLeakedBytes (replay initState opsC1)
        ∧ getLeakCount (replay initState opsC1) =
          (specLiveAddresses opsC1).length) :=
  ⟨by decide, C1_balance_law opsC1 (by decide)⟩

/-- C2: tracking an address that is already live (detector enabled)
overwrites the record with a freshly-timestamped one and adds the new
size to `currentMemoryUsage_` and to the category total without first
subtracting the old size; the live-set sum drops by the old size while
the incremental counter does not, so the old size stays double-counted. -/
theorem C2_duplicate_track_double_counts (s : MemoryLeakDetector)
    (p sz : Nat) (f : String) (l : Int) (fn c : String) (now : Nat)
    (old : AllocationInfo) (henb : s.enabled_ = true) (hp : p ≠ 0)
    (hold : mapFind p s.allocations_ = some old) :
    mapFind p (trackAllocation s p sz f l fn c now).allocations_ =
      some { pointer := p, size := sz % W, file := f, line := l,
             function := fn, timestamp := now, category := c,
             tracked := true }
    ∧ (trackAllocation s p sz f l fn c now).currentMemoryUsage_ =
        addW s.currentMemoryUsage_ (sz % W)
    ∧ catFind c (trackAllocation s p sz f l fn c now).categoryStats_ =
        addW (catFind c s.categoryStats_) (sz % W)
    ∧ sumSizes (trackAllocation s p sz f l fn c now).allocations_ +
        old.size = sumSizes s.allocations_ + sz % W := by
  rw [trackAllocation_eq henb hp]
  exact ⟨mapFind_mapInsert_self _ _ _, rfl, catFind_catAdd_self _ _ _,
    sumSizes_mapInsert _ hold⟩

/-- Concrete instance of C2: the state after one track of address 1. -/
def stateC2 : MemoryLeakDetector :=
  trackAllocation initState 1 10 "f" 1 "g" "a" 0

theorem C2_duplicate_track_double_counts_witness :
    stateC2.enabled_ = true
    ∧ (mapFind 1 (trackAllocation stateC2 1 20 "f" 2 "g" "a" 1).allocations_
        = some { pointer := 1, size := 20 % W, file := "f", line := 2,
                 function := "g", timestamp := 1, category := "a",
                 tracked := true }
      ∧ (trackAllocation stateC2 1 20 "f" 2 "g" "a" 1).currentMemoryUsage_
          = addW stateC2.currentMemoryUsage_ (20 % W)
      ∧ catFind "a"
          (trackAllocation stateC2 1 20 "f" 2 "g" "a" 1).categoryStats_
          = addW (catFind "a" stateC2.categoryStats_) (20 % W)
      ∧ sumSizes (trackAllocation stateC2 1 20 "f" 2 "g" "a" 1).allocations_
          + (10 : Nat) = sumSizes stateC2.allocations_ + 20 % W) :=
  ⟨by decide,
   C2_duplicate_track_double_counts stateC2 1 20 "f" 2 "g" "a" 1
     { pointer := 1, size := 10, file := "f", line := 1, function := "g",
       timestamp := 0, category := "a", tracked := true }
     (by decide) (by decide) (by decide)⟩

/-- Concrete sequence refuting the second half of C3: tracking 10 bytes,
then `2 ^ 64 - 5` bytes (the counter wraps to 5), then untracking the
10-byte record leaves `currentMemoryUsage_ = 2 ^ 64 - 5` while
`peakMemoryUsage_ = 10`. -/
def opsC3cex : List Op :=
  [Op.track 1 10 "" 0 "" "a" 0, Op.track 2 (W - 5) "" 0 "" "a" 0,
   Op.untrack 1]

/-- C3 counterexample: after `opsC3cex` (all sizes are valid `size_t`
values, never validated by the code), `peakMemoryUsage_ = 10` but
`currentMemoryUsage_ = 2 ^ 64 - 5`, so `peak ≥ current` fails. -/
theorem C3_counterexample :
    (replay initState opsC3cex).peakMemoryUsage_ = 10
    ∧ (replay initState opsC3cex).currentMemoryUsage_ = W - 5
    ∧ ¬((replay initState opsC3cex).currentMemoryUsage_ ≤
        (replay initState opsC3cex).peakMemoryUsage_) := by decide

/-- C3 (amended): `peakMemoryUsage_` never decreases at any call other
than `resetStats`; and `peakMemoryUsage_ ≥ currentMemoryUsage_` holds
after every sequence in which no `size_t` wraparound occurs (every
effective track keeps the counter below `2 ^ 64` and every effective
untrack subtracts no more than the counter holds). -/
theorem C3_peak_monotone_amended :
    (∀ (s : MemoryLeakDetector) (op : Op), op ≠ Op.resetStatsOp →
      s.peakMemoryUsage_ ≤ (step s op).peakMemoryUsage_)
    ∧ (∀ ops : List Op, noOverflowOps initState ops = true →
        (replay initState ops).currentMemoryUsage_ ≤
          (replay initState ops).peakMemoryUsage_) :=
  ⟨peak_mono_step,
   fun ops h =>
     (noOverflow_inv ops initState h (Nat.le_refl 0) W_pos).1⟩

/-- Concrete instance of C3 (amended). -/
def opsC3wit : List Op :=
  [Op.track 1 4096 "f" 1 "g" "a" 0, Op.untrack 1,
   Op.track 2 1024 "f" 2 "g" "a" 1]

theorem C3_peak_monotone_amended_witness :
    initState.peakMemoryUsage_ ≤
      (step initState (Op.untrack 7)).peakMemoryUsage_
    ∧ noOverflowOps initState opsC3wit = true
    ∧ (replay initState opsC3wit).currentMemoryUsage_ ≤
        (replay initState opsC3wit).peakMemoryUsage_ :=
  ⟨C3_peak_monotone_amended.1 initState (Op.untrack 7) (by decide),
   by decide,
   C3_peak_monotone_amended.2 opsC3wit (by decide)⟩

/-- C4: untracking an address with no live record is a silent no-op
(state exactly unchanged); untracking twice in succession equals
untracking once (on states with duplicate-free map keys, which all
reachable states are). -/
theorem C4_untrack_absent_noop (s : MemoryLeakDetector) (p : Nat) :
    (mapFind p s.allocations_ = none → untrackAllocation s p = s)
    ∧ ((keys s.allocations_).Nodup →
        untrackAllocation (untrackAllocation s p) p = untrackAllocation s p)
    ∧ (∀ ops : List Op, (keys (replay initState ops).allocations_).Nodup) := by
  refine ⟨fun hf => untrackAllocation_not_found hf, ?_, nodup_keys_replay⟩
  intro hnd
  by_cases hcond : s.enabled_ = false ∨ p = 0
  · simp [untrackAllocation_noop hcond]
  · push_neg at hcond
    have henb : s.enabled_ = true := by
      cases hb : s.enabled_
      · exact absurd rfl (hb ▸ hcond.1)
      · rfl
    cases hf : mapFind p s.allocations_ with
    | none =>
      rw [untrackAllocation_not_found hf, untrackAllocation_not_found hf]
    | some info =>
      rw [untrackAllocation_found henb hcond.2 hf]
      exact untrackAllocation_not_found (mapFind_mapErase_self hnd)

theorem C4_untrack_absent_noop_witness :
    mapFind 9 initState.allocations_ = none
    ∧ untrackAllocation initState 9 = initState
    ∧ untrackAllocation (untrackAllocation initState 9) 9 =
        untrackAllocation initState 9 :=
  ⟨by decide, (C4_untrack_absent_noop initState 9).1 (by decide),
   (C4_untrack_absent_noop initState 9).2.1 (by decide)⟩

/-- C5: with the detector disabled, any number of `trackAllocation` and
`untrackAllocation` calls leave the whole state (live map, counters,
category totals) exactly unchanged. -/
theorem C5_disabled_noop (s : MemoryLeakDetector) (ops : List Op)
    (hdis : s.enabled_ = false)
    (hops : ∀ op ∈ ops, isTrackOrUntrack op = true) :
    replay s ops = s :=
  disabled_replay ops s hdis hops

/-- Concrete instance of C5. -/
def opsC5 : List Op :=
  [Op.track 1 100 "f" 1 "g" "a" 0, Op.untrack 1,
   Op.track 2 200 "f" 2 "g" "b" 1]

theorem C5_disabled_noop_witness :
    (setEnabled initState false).enabled_ = false
    ∧ replay (setEnabled initState false) opsC5 =
        setEnabled initState false :=
  ⟨by decide,
   C5_disabled_noop (setEnabled initState false) opsC5 (by decide)
     (by decide)⟩

/-- C6: `getStats` computes `leaksByCategory` and `leaksByFile` by
grouping the current live set by record category resp. file and summing
sizes — for every state, including ones whose incremental counters have
drifted — and never reads `categoryStats_` (replacing that field leaves
the snapshot unchanged). -/
theorem C6_stats_group_by_live_set (s : MemoryLeakDetector) (now : Nat)
    (c fl : String) :
    catFind c (getStats s now).leaksByCategory = specCategorySum c s
    ∧ catFind fl (getStats s now).leaksByFile = specFileSum fl s
    ∧ (∀ cs : List (String × Nat),
        getStats { s with categoryStats_ := cs } now = getStats s now) := by
  refine ⟨?_, ?_, fun cs => rfl⟩
  · have h := catFind_foldGroup (fun e => e.2.category) s.allocations_ []
      c W_pos
    simpa [getStats, specCategorySum, catFind] using h
  · have h := catFind_foldGroup (fun e => e.2.file) s.allocations_ []
      fl W_pos
    simpa [getStats, specFileSum, catFind] using h

/-- Concrete sequence exhibiting a counter value smaller than a live
record's size: track 10 bytes as "a", then `2 ^ 64 - 5` bytes as "a"
(the category counter wraps to 5 while address 1's record holds 10). -/
def opsC8pre : List Op :=
  [Op.track 1 10 "" 0 "" "a" 0, Op.track 2 (W - 5) "" 0 "" "a" 0]

/-- The same sequence followed by the untrack that subtracts more (10)
than the counter holds (5). -/
def opsC8post : List Op :=
  [Op.track 1 10 "" 0 "" "a" 0, Op.track 2 (W - 5) "" 0 "" "a" 0,
   Op.untrack 1]

/-- C8 counterexample: at a reachable state the category counter holds 5
while the untracked record's size is 10; after the untrack the stored
counter is `2 ^ 64 - 5` — a wrapped unsigned value, not the negative
signed difference `5 - 10` and not a clamp at zero. -/
theorem C8_counterexample :
    catFind "a" (replay initState opsC8pre).categoryStats_ = 5
    ∧ mapFind 1 (replay initState opsC8pre).allocations_ =
        some { pointer := 1, size := 10, file := "", line := 0,
               function := "", timestamp := 0, category := "a",
               tracked := true }
    ∧ catFind "a" (replay initState opsC8post).categoryStats_ = W - 5
    ∧ ((catFind "a" (replay initState opsC8post).categoryStats_ : Int) ≠
        (5 : Int) - 10)
    ∧ (0 : Int) ≤
        (catFind "a" (replay initState opsC8post).categoryStats_ : Int) := by
  decide

/-- C8 (amended): the per-category totals are unsigned `size_t`
accumulators; an effective untrack subtracts the record's size with
wraparound modulo `2 ^ 64`: the result is always in `[0, 2 ^ 64)` (never
negative), and when the counter holds less than the subtracted size the
value wraps to `counter + 2 ^ 64 - size` instead of clamping at zero. -/
theorem C8_unsigned_wrap_amended (s : MemoryLeakDetector) (p : Nat)
    (info : AllocationInfo) (henb : s.enabled_ = true) (hp : p ≠ 0)
    (hf : mapFind p s.allocations_ = some info) :
    catFind info.category (untrackAllocation s p).categoryStats_ =
      subW (catFind info.category s.categoryStats_) info.size
    ∧ subW (catFind info.category s.categoryStats_) info.size < W
    ∧ (catFind info.category s.categoryStats_ < info.size % W →
        subW (catFind info.category s.categoryStats_) info.size =
          catFind info.category s.categoryStats_ + W - info.size % W) := by
  rw [untrackAllocation_found henb hp hf]
  exact ⟨catFind_catSub_self _ _ _, subW_lt _ _, fun h => subW_of_wrap h⟩

theorem C8_unsigned_wrap_amended_witness :
    (replay initState opsC8pre).enabled_ = true
    ∧ catFind "a"
        (untrackAllocation (replay initState opsC8pre) 1).categoryStats_ =
      subW (catFind "a" (replay initState opsC8pre).categoryStats_) 10
    ∧ subW (catFind "a" (replay initState opsC8pre).categoryStats_) 10 =
        catFind "a" (replay initState opsC8pre).categoryStats_ + W - 10 :=
  ⟨by decide,
   (C8_unsigned_wrap_amended (replay initState opsC8pre) 1
     { pointer := 1, size := 10, file := "", line := 0, function := "",
       timestamp := 0, category := "a", tracked := true }
     (by decide) (by decide) (by decide)).1,
   (C8_unsigned_wrap_amended (replay initState opsC8pre) 1
     { pointer := 1, size := 10, file := "", line := 0, function := "",
       timestamp := 0, category := "a", tracked := true }
     (by decide) (by decide) (by decide)).2.2 (by decide)⟩

/-- C9: `clear` removes all live records and resets
`currentMemoryUsage_` and every category total to zero while leaving
`peakMemoryUsage_` (and the enabled switch) exactly unchanged. -/
theorem C9_clear_preserves_peak (s : MemoryLeakDetector) :
    (clear s).allocations_ = []
    ∧ (clear s).currentMemoryUsage_ = 0
    ∧ (∀ c : String, catFind c (clear s).categoryStats_ = 0)
    ∧ (clear s).peakMemoryUsage_ = s.peakMemoryUsage_
    ∧ (clear s).enabled_ = s.enabled_ :=
  ⟨rfl, rfl, fun _ => rfl, rfl, rfl⟩

/-- C10: calling `trackAllocation` or `untrackAllocation` with a null
pointer is a silent no-op leaving the state exactly unchanged, in every
state (enabled included). -/
theorem C10_null_pointer_noop (s : MemoryLeakDetector) (sz : Nat)
    (f : String) (l : Int) (fn c : String) (now : Nat) :
    trackAllocation s 0 sz f l fn c now = s
    ∧ untrackAllocation s 0 = s :=
  ⟨trackAllocation_noop (Or.inr rfl) sz f l fn c now,
   untrackAllocation_noop (Or.inr rfl)⟩

end Bolt
